import Mathlib

/-!
Verification development for the Trade-Forge trade-execution and valuation core.

The repository ships only the client-side consumers (the `usePriceStream`
hook and the `LivePrice` component); the server-side Trade Executor,
Portfolio Valuator and Price Cache are referenced by the spec and by the
deployment notes but their code is not present, so those components are
modelled from the spec (each such definition says so in its doc comment).
All money and quantity arithmetic uses `ℚ` (exact rational arithmetic),
matching the spec's demand for fixed-point or rational computation.
-/

namespace TradeForge

/-- Modelled from the spec: a Price Tick `(exchange, symbol, price, volume,
source timestamp)` (§3).  Timestamps are rationals (seconds). -/
structure Tick where
  exchange : String
  symbol : String
  price : ℚ
  volume : ℚ
  timestamp : ℚ
deriving DecidableEq

/-- Modelled from the spec: the Price Cache retains the most recent tick per
(exchange, symbol) (§3, §4.1); we model its contents as the list of those
retained ticks. -/
abbrev PriceCache := List Tick

/-- Ticks of the cache carrying a given symbol. -/
def ticksFor (cache : PriceCache) (symbol : String) : List Tick :=
  List.filter (fun t => t.symbol == symbol) cache

/-- Tick with the most recent timestamp in a list (first wins ties later in
the list). -/
def latestOf : List Tick → Option Tick
  | [] => none
  | t :: ts =>
    match latestOf ts with
    | none => some t
    | some b => if b.timestamp ≤ t.timestamp then some t else some b

/-- Modelled from the spec: `get_latest(symbol)` chooses the best-effort tick
by most-recent timestamp across all exchanges carrying the symbol (§4.1). -/
def get_latest (cache : PriceCache) (symbol : String) : Option Tick :=
  latestOf (ticksFor cache symbol)

/-- Modelled from the spec: a Holding keyed by symbol, with `quantity`,
`average_entry_price` and `total_invested` (§3). -/
structure Holding where
  quantity : ℚ
  average_entry_price : ℚ
  total_invested : ℚ
deriving DecidableEq

/-- Modelled from the spec: the Account Ledger, `cash_balance` plus
`starting_balance`, together with the account's holdings keyed by symbol
(§3). -/
structure Ledger where
  cash_balance : ℚ
  starting_balance : ℚ
  holdings : List (String × Holding)
deriving DecidableEq

/-- Look up the holding for a symbol (first matching entry). -/
def findHolding : List (String × Holding) → String → Option Holding
  | [], _ => none
  | (k, h) :: rest, s => if k = s then some h else findHolding rest s

/-- Remove every entry for a symbol. -/
def removeHolding (hs : List (String × Holding)) (s : String) :
    List (String × Holding) :=
  List.filter (fun p => !(p.1 == s)) hs

/-- Quantity currently held for a symbol (0 when there is no holding). -/
def heldQty (led : Ledger) (s : String) : ℚ :=
  match findHolding led.holdings s with
  | none => 0
  | some h => h.quantity

/-- Order side. -/
inductive Side
  | buy
  | sell
deriving DecidableEq

/-- Modelled from the spec: the typed failures of the Trade Executor that
concern a single order (§7); lock timeouts do not arise in the sequential
model. -/
inductive TradeError
  | PriceUnavailable
  | InsufficientBalance
  | InsufficientHoldings
deriving DecidableEq

/-- Modelled from the spec: an immutable Trade Record reflecting the
resulting balance (§3, §4.4 step 6). -/
structure TradeRecord where
  symbol : String
  side : Side
  quantity : ℚ
  price : ℚ
  total_value : ℚ
  resulting_balance : ℚ
  timestamp : ℚ
deriving DecidableEq

/-- An inbound order request `{symbol, side, quantity}` for one account
(§6). -/
structure OrderReq where
  symbol : String
  side : Side
  quantity : ℚ
deriving DecidableEq

/-- Modelled from the spec: the buy branch of `execute_order` (§4.4 step 4):
fail with `InsufficientBalance` if `total_value > cash_balance`, otherwise
deduct `total_value`, increase the holding quantity and update
`average_entry_price` as the quantity-weighted average. -/
def buyStep (led : Ledger) (symbol : String) (quantity price now : ℚ) :
    Except TradeError (Ledger × TradeRecord) :=
  let total_value := quantity * price
  if led.cash_balance < total_value then
    .error .InsufficientBalance
  else
    let old := (findHolding led.holdings symbol).getD ⟨0, 0, 0⟩
    let newQty := old.quantity + quantity
    let newAvg := (old.quantity * old.average_entry_price + quantity * price) / newQty
    let led' : Ledger :=
      ⟨led.cash_balance - total_value, led.starting_balance,
        (symbol, ⟨newQty, newAvg, old.total_invested + total_value⟩) ::
          removeHolding led.holdings symbol⟩
    .ok (led', ⟨symbol, .buy, quantity, price, total_value, led'.cash_balance, now⟩)

/-- Modelled from the spec: the sell branch of `execute_order` (§4.4 step 5):
fail with `InsufficientHoldings` if `quantity > held_quantity`, otherwise
credit `total_value`, decrease the holding quantity, remove the holding when
the resulting quantity is zero, and leave the average price unchanged. -/
def sellStep (led : Ledger) (symbol : String) (quantity price now : ℚ) :
    Except TradeError (Ledger × TradeRecord) :=
  let total_value := quantity * price
  match findHolding led.holdings symbol with
  | none => .error .InsufficientHoldings
  | some h =>
    if h.quantity < quantity then
      .error .InsufficientHoldings
    else
      let newQty := h.quantity - quantity
      let holdings' :=
        if newQty = 0 then removeHolding led.holdings symbol
        else
          (symbol, ⟨newQty, h.average_entry_price,
            h.total_invested - quantity * h.average_entry_price⟩) ::
            removeHolding led.holdings symbol
      let led' : Ledger :=
        ⟨led.cash_balance + total_value, led.starting_balance, holdings'⟩
      .ok (led', ⟨symbol, .sell, quantity, price, total_value, led'.cash_balance, now⟩)

/-- Modelled from the spec: `execute_order` (§4.4).  The execution price is
resolved through `get_latest`; the order fails with `PriceUnavailable` when
no tick exists or the tick is older than the staleness threshold `thr`
relative to `now`; otherwise the buy or sell branch applies atomically and
yields the new ledger together with the appended Trade Record. -/
def execute_order (cache : PriceCache) (now thr : ℚ) (led : Ledger)
    (symbol : String) (side : Side) (quantity : ℚ) :
    Except TradeError (Ledger × TradeRecord) :=
  match get_latest cache symbol with
  | none => .error .PriceUnavailable
  | some tick =>
    if thr < now - tick.timestamp then
      .error .PriceUnavailable
    else
      match side with
      | .buy => buyStep led symbol quantity tick.price now
      | .sell => sellStep led symbol quantity tick.price now

/-- Ledger plus the append-only list of Trade Records. -/
structure ExecState where
  ledger : Ledger
  records : List TradeRecord
deriving DecidableEq

/-- Modelled from the spec: one order against the transactional state — on
failure the state is returned untouched, on success the new ledger is
installed and the Trade Record appended (§4.4 steps 6–7). -/
def apply_order (cache : PriceCache) (now thr : ℚ) (st : ExecState)
    (o : OrderReq) : ExecState × Except TradeError TradeRecord :=
  match execute_order cache now thr st.ledger o.symbol o.side o.quantity with
  | .error e => (st, .error e)
  | .ok (led', rec) => (⟨led', st.records ++ [rec]⟩, .ok rec)

/-- Modelled from the spec: per-account serialization (§5) — the orders of
one account execute one after the other; a failed order leaves the ledger
unchanged and the next order proceeds from the same ledger. -/
def execMany (cache : PriceCache) (now thr : ℚ) (led : Ledger) :
    List OrderReq → Ledger × List (Except TradeError TradeRecord)
  | [] => (led, [])
  | o :: os =>
    match execute_order cache now thr led o.symbol o.side o.quantity with
    | .error e =>
      let r := execMany cache now thr led os
      (r.1, .error e :: r.2)
    | .ok (led', rec) =>
      let r := execMany cache now thr led' os
      (r.1, .ok rec :: r.2)

/-- Well-formed cache: every retained tick carries a nonnegative price. -/
def CacheWF (cache : PriceCache) : Prop := ∀ t ∈ cache, 0 ≤ t.price

/-- Ledger invariant of the spec (§3): `cash_balance ≥ 0` and every
holding's `quantity ≥ 0`. -/
def Ledger.WF (led : Ledger) : Prop :=
  0 ≤ led.cash_balance ∧ ∀ p ∈ led.holdings, 0 ≤ p.2.quantity

/-- Price used for a holding by the Valuator: the latest cached price, or
the holding's `average_entry_price` when no tick is cached. -/
def resolvedPrice (cache : PriceCache) (s : String) (h : Holding) : ℚ :=
  match get_latest cache s with
  | some t => t.price
  | none => h.average_entry_price

/-- True when no tick is cached for the symbol, so the valuation of the
holding degrades to its average entry price. -/
def isStaleFor (cache : PriceCache) (s : String) : Bool :=
  match get_latest cache s with
  | some _ => false
  | none => true

/-- Per-holding row of a portfolio snapshot. -/
structure HoldingView where
  symbol : String
  quantity : ℚ
  average_entry_price : ℚ
  total_invested : ℚ
  current_price : ℚ
  current_value : ℚ
  unrealized_pnl : ℚ
  stale : Bool
deriving DecidableEq

/-- Modelled from the spec: valuation of one holding (§4.5). -/
def valueHolding (cache : PriceCache) (p : String × Holding) : HoldingView :=
  ⟨p.1, p.2.quantity, p.2.average_entry_price, p.2.total_invested,
    resolvedPrice cache p.1 p.2,
    p.2.quantity * resolvedPrice cache p.1 p.2,
    p.2.quantity * resolvedPrice cache p.1 p.2 - p.2.total_invested,
    isStaleFor cache p.1⟩

/-- Modelled from the spec: the `PortfolioSnapshot` shape (§4.5). -/
structure PortfolioSnapshot where
  current_value : ℚ
  total_invested : ℚ
  unrealized_pnl : ℚ
  pnl_percent : ℚ
  holdings : List HoldingView
  allocations : List (String × ℚ)
deriving DecidableEq

/-- Modelled from the spec: `value_portfolio` (§4.5) — a pure function of
the cache and the ledger; a holding with no cached tick is valued at its
average entry price and flagged stale instead of failing the whole
computation; `pnl_percent` is defined as 0 when `total_invested = 0`. -/
def value_portfolio (cache : PriceCache) (led : Ledger) : PortfolioSnapshot :=
  let views := led.holdings.map (valueHolding cache)
  let cv := (views.map (fun v => v.current_value)).sum
  let ti := (views.map (fun v => v.total_invested)).sum
  let pnl := cv - ti
  let pct := if ti = 0 then 0 else pnl / ti * 100
  ⟨cv, ti, pnl, pct, views,
    views.map (fun v => (v.symbol, v.current_value / cv * 100))⟩

/-- Result of a buy-then-sell round trip: the final ledger when both legs
succeed, `none` when either leg fails. -/
def roundTripLedger (cache : PriceCache) (now thr : ℚ) (led : Ledger)
    (s : String) (q : ℚ) : Option Ledger :=
  match execute_order cache now thr led s .buy q with
  | .error _ => none
  | .ok (l1, _) =>
    match execute_order cache now thr l1 s .sell q with
    | .error _ => none
    | .ok (l2, _) => some l2

/-- Average entry price currently stored for a symbol (0 when there is no
holding). -/
def heldAvg (led : Ledger) (s : String) : ℚ :=
  ((findHolding led.holdings s).getD ⟨0, 0, 0⟩).average_entry_price

/-- Total invested currently stored for a symbol (0 when there is no
holding). -/
def heldInvested (led : Ledger) (s : String) : ℚ :=
  ((findHolding led.holdings s).getD ⟨0, 0, 0⟩).total_invested

/-- Concrete ledger fixture with an existing holding of 1 unit at average
price 10. -/
def wLedH : Ledger := ⟨100, 100, [("BTCUSDT", ⟨1, 10, 10⟩)]⟩

/-- Concrete cache fixture: one fresh BTCUSDT tick at price 10. -/
def wCache : PriceCache := [⟨"binance", "BTCUSDT", 10, 1, 0⟩]

/-- Concrete ledger fixture: 100 cash, no holdings. -/
def wLed : Ledger := ⟨100, 100, []⟩

/-- Concrete order-sequence fixture: buy 5, then sell 2. -/
def wOrders : List OrderReq :=
  [⟨"BTCUSDT", .buy, 5⟩, ⟨"BTCUSDT", .sell, 2⟩]

end TradeForge

namespace PriceStream

/-- Shallow model of a JavaScript runtime value as handled by the
`usePriceStream` consumer and the `LivePrice` component: `undefined`, a bare
number, or an object carrying `price` and `volume` fields. -/
inductive JsVal
  | undefined
  | num (q : ℚ)
  | obj (price volume : ℚ)
deriving DecidableEq

/-- Property access `v?.price` of LivePrice.jsx line 50: a bare number and
`undefined` have no `price` field, so the access yields `undefined`. -/
def JsVal.priceField : JsVal → JsVal
  | .obj p _ => .num p
  | _ => .undefined

/-- Property access `v?.volume` of LivePrice.jsx line 53: a bare number and
`undefined` have no `volume` field, so the access yields `undefined`. -/
def JsVal.volumeField : JsVal → JsVal
  | .obj _ v => .num v
  | _ => .undefined

/-- JavaScript truthiness as used by `if (!price)` / `if (!volume)`:
`undefined` and `0` are falsy. -/
def truthy : JsVal → Bool
  | .undefined => false
  | .num q => decide (q ≠ 0)
  | .obj _ _ => true

/-- A rendered table cell: the `'---'` placeholder or a formatted value. -/
inductive Cell
  | placeholder
  | shown (v : JsVal)
deriving DecidableEq

/-- The `formatPrice` helper of LivePrice.jsx lines 8–16: falsy input
renders `'---'`. -/
def formatPrice (v : JsVal) : Cell :=
  if truthy v then .shown v else .placeholder

/-- The `formatVolume` helper of LivePrice.jsx lines 18–21: falsy input
renders `'---'`. -/
def formatVolume (v : JsVal) : Cell :=
  if truthy v then .shown v else .placeholder

/-- Map lookup `prices[key]`: `undefined` when the key is absent. -/
def lookupJs (m : List (String × JsVal)) (k : String) : JsVal :=
  match m.find? (fun p => p.1 == k) with
  | some p => p.2
  | none => .undefined

/-- The per-exchange price cell of LivePrice.jsx lines 39 and 50:
`formatPrice(prices[`exchange:symbol`]?.price)`. -/
def priceCell (prices : List (String × JsVal)) (exchange symbol : String) :
    Cell :=
  formatPrice (JsVal.priceField (lookupJs prices (exchange ++ ":" ++ symbol)))

/-- The per-exchange volume cell of LivePrice.jsx lines 39 and 53:
`formatVolume(prices[`exchange:symbol`]?.volume)`. -/
def volumeCell (prices : List (String × JsVal)) (exchange symbol : String) :
    Cell :=
  formatVolume (JsVal.volumeField (lookupJs prices (exchange ++ ":" ++ symbol)))

/-- RECONNECT_DELAY of usePriceStream (3000 ms). -/
def RECONNECT_DELAY : Nat := 3000

/-- MAX_RECONNECT_ATTEMPTS of usePriceStream (10). -/
def MAX_RECONNECT_ATTEMPTS : Nat := 10

/-- State held by the `usePriceStream` hook: the `prices` map, the
`isConnected` flag, the `error` message, the `reconnectAttemptsRef` counter
and the reconnect delay scheduled by the most recent event (if any). -/
structure StreamState where
  prices : List (String × JsVal)
  isConnected : Bool
  errorMsg : Option String
  reconnectAttempts : Nat
  scheduledDelay : Option Nat
deriving DecidableEq

/-- State of the hook right after mount, before any event. -/
def initialStreamState : StreamState := ⟨[], false, none, 0, none⟩

/-- A price update as declared by the `PriceUpdate` interface of
usePriceStream.ts. -/
structure PriceUpdate where
  symbol : String
  price : ℚ
  exchange : String
  timestamp : String
deriving DecidableEq

/-- A received WebSocket message after the JSON.parse attempt: either it
failed to parse as a price update, or it parsed. -/
inductive StreamMsg
  | malformed
  | parsed (u : PriceUpdate)
deriving DecidableEq

/-- The `setPrices` update of usePriceStream.ts lines 60–63:
`{...prevPrices, [update.symbol]: update.price}` — the entry for the symbol
is overwritten with the bare numeric price. -/
def setPrice (m : List (String × JsVal)) (k : String) (v : JsVal) :
    List (String × JsVal) :=
  (k, v) :: List.filter (fun p => !(p.1 == k)) m

/-- The `ws.onmessage` handler of usePriceStream.ts lines 56–67: a parsed
update stores `update.price` under the key `update.symbol`; a malformed
message is only logged, leaving the state untouched. -/
def onMessage (st : StreamState) (msg : StreamMsg) : StreamState :=
  match msg with
  | .malformed => st
  | .parsed u => { st with prices := setPrice st.prices u.symbol (JsVal.num u.price) }

/-- The `ws.onopen` handler of usePriceStream.ts lines 49–54. -/
def onOpen (st : StreamState) : StreamState :=
  { st with isConnected := true, errorMsg := none, reconnectAttempts := 0 }

/-- The `ws.onclose` handler of usePriceStream.ts lines 74–91: a close with
code other than 1000 while fewer than MAX_RECONNECT_ATTEMPTS attempts were
made increments the counter and schedules one reconnect after
RECONNECT_DELAY; once the counter has reached the bound only the error
message is set; an intentional close schedules nothing. -/
def onClose (st : StreamState) (code : Nat) : StreamState :=
  let st1 := { st with isConnected := false }
  if code ≠ 1000 ∧ st1.reconnectAttempts < MAX_RECONNECT_ATTEMPTS then
    { st1 with reconnectAttempts := st1.reconnectAttempts + 1,
               scheduledDelay := some RECONNECT_DELAY }
  else if MAX_RECONNECT_ATTEMPTS ≤ st1.reconnectAttempts then
    { st1 with errorMsg := some "Failed to reconnect after multiple attempts",
               scheduledDelay := none }
  else
    { st1 with scheduledDelay := none }

/-- The exported `reconnect` callback of usePriceStream.ts lines 115–118: it
resets `reconnectAttemptsRef` to zero and then connects (the connect call
itself schedules no delayed attempt). -/
def reconnect (st : StreamState) : StreamState :=
  { st with reconnectAttempts := 0, scheduledDelay := none }

/-- A whole sequence of received messages. -/
def processMsgs (st : StreamState) (msgs : List StreamMsg) : StreamState :=
  msgs.foldl onMessage st

/-- A whole sequence of connection closures. -/
def runCloses (st : StreamState) (codes : List Nat) : StreamState :=
  codes.foldl onClose st

end PriceStream

namespace TradeForge

theorem latestOf_mem {ts : List Tick} {t : Tick} (h : latestOf ts = some t) :
    t ∈ ts := by
  induction ts with
  | nil => simp [latestOf] at h
  | cons a as ih =>
    simp only [latestOf] at h
    cases hrec : latestOf as with
    | none =>
      rw [hrec] at h
      simp only [Option.some.injEq] at h
      simp [h]
    | some b =>
      rw [hrec] at h
      by_cases hle : b.timestamp ≤ a.timestamp
      · simp only [if_pos hle, Option.some.injEq] at h
        simp [h]
      · simp only [if_neg hle, Option.some.injEq] at h
        subst h
        exact List.mem_cons_of_mem _ (ih hrec)

theorem get_latest_mem {cache : PriceCache} {s : String} {t : Tick}
    (h : get_latest cache s = some t) : t ∈ cache ∧ t.symbol = s := by
  have hmem := latestOf_mem h
  rw [ticksFor, List.mem_filter] at hmem
  exact ⟨hmem.1, by simpa using hmem.2⟩

theorem get_latest_price_nonneg {cache : PriceCache} {s : String} {t : Tick}
    (hc : CacheWF cache) (h : get_latest cache s = some t) : 0 ≤ t.price :=
  hc t (get_latest_mem h).1

theorem findHolding_mem {l : List (String × Holding)} {s : String} {h : Holding}
    (hf : findHolding l s = some h) : (s, h) ∈ l := by
  induction l with
  | nil => simp [findHolding] at hf
  | cons a rest ih =>
    obtain ⟨k, h0⟩ := a
    simp only [findHolding] at hf
    by_cases hk : k = s
    · rw [if_pos hk] at hf
      simp only [Option.some.injEq] at hf
      subst hk; subst hf
      exact List.mem_cons_self _ _
    · rw [if_neg hk] at hf
      exact List.mem_cons_of_mem _ (ih hf)

theorem mem_removeHolding {l : List (String × Holding)} {s : String}
    {p : String × Holding} (h : p ∈ removeHolding l s) : p ∈ l :=
  (List.mem_filter.mp h).1

theorem findHolding_removeHolding (l : List (String × Holding)) (s : String) :
    findHolding (removeHolding l s) s = none := by
  induction l with
  | nil => rfl
  | cons a rest ih =>
    obtain ⟨k, h0⟩ := a
    by_cases hk : k = s
    · simpa [removeHolding, List.filter_cons, hk] using ih
    · simpa [removeHolding, List.filter_cons, hk, findHolding] using ih

end TradeForge

namespace TradeForge

/-- C5: if the Price Cache holds no tick for the symbol, or the latest tick
for the symbol is older than the staleness threshold, `execute_order` fails
with `PriceUnavailable`; a stale price is never used to price an order. -/
theorem c5_stale_or_missing_price_fails (cache : PriceCache) (now thr : ℚ)
    (led : Ledger) (s : String) (side : Side) (q : ℚ) :
    ((∀ t ∈ cache, t.symbol ≠ s) →
        execute_order cache now thr led s side q = .error .PriceUnavailable)
    ∧ (∀ tick, get_latest cache s = some tick → thr < now - tick.timestamp →
        execute_order cache now thr led s side q = .error .PriceUnavailable) := by
  constructor
  · intro hnone
    have hfilter : ticksFor cache s = [] := by
      rw [ticksFor, List.filter_eq_nil_iff]
      intro t ht
      simpa using hnone t ht
    have : get_latest cache s = none := by
      rw [get_latest, hfilter]; rfl
    simp [execute_order, this]
  · intro tick htick hstale
    simp [execute_order, htick, hstale]

end TradeForge

namespace PriceStream

/-- C9: a stream message that fails to parse as a price update is dropped:
the hook state is left exactly as it was, and no message — parsed or not —
ever changes the connection flag, the error message, the attempt counter or
the scheduled reconnect. -/
theorem c9_malformed_message_dropped (st : StreamState) (msg : StreamMsg) :
    onMessage st .malformed = st
    ∧ (onMessage st msg).isConnected = st.isConnected
    ∧ (onMessage st msg).errorMsg = st.errorMsg
    ∧ (onMessage st msg).reconnectAttempts = st.reconnectAttempts
    ∧ (onMessage st msg).scheduledDelay = st.scheduledDelay := by
  cases msg <;> simp [onMessage]

end PriceStream

namespace TradeForge

theorem buyStep_WF {led : Ledger} {s : String} {q price now : ℚ}
    (hl : led.WF) (hq : 0 < q) {led' : Ledger} {rec : TradeRecord}
    (h : buyStep led s q price now = .ok (led', rec)) : led'.WF := by
  simp only [buyStep] at h
  split at h
  · exact absurd h (by simp)
  · rename_i hcash
    simp only [Except.ok.injEq, Prod.mk.injEq] at h
    obtain ⟨hled, -⟩ := h
    subst hled
    refine ⟨by simpa using not_lt.mp hcash, ?_⟩
    intro p hp
    rcases List.mem_cons.mp hp with hp | hp
    · subst hp
      have hold : 0 ≤ ((findHolding led.holdings s).getD ⟨0, 0, 0⟩).quantity := by
        cases hfh : findHolding led.holdings s with
        | none => simp
        | some h0 => simpa using hl.2 _ (findHolding_mem hfh)
      simpa using add_nonneg hold hq.le
    · exact hl.2 _ (mem_removeHolding hp)

theorem sellStep_WF {led : Ledger} {s : String} {q price now : ℚ}
    (hl : led.WF) (hq : 0 < q) (hp : 0 ≤ price) {led' : Ledger}
    {rec : TradeRecord} (h : sellStep led s q price now = .ok (led', rec)) :
    led'.WF := by
  simp only [sellStep] at h
  split at h
  · exact absurd h (by simp)
  · rename_i h0 hfh
    split at h
    · exact absurd h (by simp)
    · rename_i hqty
      simp only [Except.ok.injEq, Prod.mk.injEq] at h
      obtain ⟨hled, -⟩ := h
      subst hled
      refine ⟨add_nonneg hl.1 (mul_nonneg hq.le hp), ?_⟩
      intro p hpmem
      simp only at hpmem
      split at hpmem
      · exact hl.2 _ (mem_removeHolding hpmem)
      · rcases List.mem_cons.mp hpmem with hpm | hpm
        · subst hpm
          simpa using sub_nonneg.mpr (not_lt.mp hqty)
        · exact hl.2 _ (mem_removeHolding hpm)

theorem execute_order_WF {cache : PriceCache} {now thr : ℚ} {led : Ledger}
    {s : String} {side : Side} {q : ℚ} (hc : CacheWF cache) (hl : led.WF)
    (hq : 0 < q) {led' : Ledger} {rec : TradeRecord}
    (h : execute_order cache now thr led s side q = .ok (led', rec)) :
    led'.WF := by
  simp only [execute_order] at h
  split at h
  · exact absurd h (by simp)
  · rename_i tick hg
    split at h
    · exact absurd h (by simp)
    · split at h
      · exact buyStep_WF hl hq h
      · exact sellStep_WF hl hq (get_latest_price_nonneg hc hg) h

theorem execMany_WF {cache : PriceCache} {now thr : ℚ} (hc : CacheWF cache) :
    ∀ (os : List OrderReq) (led : Ledger), led.WF →
      (∀ o ∈ os, 0 < o.quantity) → ((execMany cache now thr led os).1).WF := by
  intro os
  induction os with
  | nil => intro led hl _; simpa [execMany] using hl
  | cons o os ih =>
    intro led hl hq
    cases hx : execute_order cache now thr led o.symbol o.side o.quantity with
    | error e =>
      have := ih led hl (fun o' ho' => hq o' (List.mem_cons_of_mem _ ho'))
      simpa [execMany, hx] using this
    | ok pr =>
      obtain ⟨led', rec⟩ := pr
      have hwf := execute_order_WF hc hl (hq o (List.mem_cons_self _ _)) hx
      have := ih led' hwf (fun o' ho' => hq o' (List.mem_cons_of_mem _ ho'))
      simpa [execMany, hx] using this

end TradeForge

namespace TradeForge

/-- C1: over any sequence of buy and sell orders executed on an account
(each with positive quantity, against a cache of nonnegative prices),
`cash_balance ≥ 0` and every holding's `quantity ≥ 0` hold after every
operation; a buy whose total value exceeds the cash balance fails with
`InsufficientBalance` and a sell whose quantity exceeds the held quantity
fails with `InsufficientHoldings`, so no operation drives either value
negative. -/
theorem c1_balance_and_quantity_invariants (cache : PriceCache)
    (now thr : ℚ) (led : Ledger) (os : List OrderReq) (hc : CacheWF cache)
    (hl : led.WF) (hq : ∀ o ∈ os, 0 < o.quantity) :
    (∀ os₁ os₂, os = os₁ ++ os₂ → ((execMany cache now thr led os₁).1).WF)
    ∧ (∀ (l : Ledger) (s : String) (q : ℚ) (tick : Tick),
        get_latest cache s = some tick → ¬ thr < now - tick.timestamp →
        l.cash_balance < q * tick.price →
        execute_order cache now thr l s .buy q = .error .InsufficientBalance)
    ∧ (∀ (l : Ledger) (s : String) (q : ℚ) (tick : Tick),
        get_latest cache s = some tick → ¬ thr < now - tick.timestamp →
        heldQty l s < q →
        execute_order cache now thr l s .sell q = .error .InsufficientHoldings) := by
  refine ⟨?_, ?_, ?_⟩
  · intro os₁ os₂ hsplit
    exact execMany_WF hc os₁ led hl
      (fun o ho => hq o (hsplit ▸ List.mem_append_left _ ho))
  · intro l s q tick hg hfresh hcash
    simp [execute_order, hg, hfresh, buyStep, hcash]
  · intro l s q tick hg hfresh hqty
    cases hfh : findHolding l.holdings s with
    | none => simp [execute_order, hg, hfresh, sellStep, hfh]
    | some h0 =>
      have : h0.quantity < q := by simpa [heldQty, hfh] using hqty
      simp [execute_order, hg, hfresh, sellStep, hfh, this]

end TradeForge

namespace TradeForge

/-- Witness for C1 at the concrete fixtures. -/
theorem c1_balance_and_quantity_invariants_witness :
    CacheWF wCache ∧ wLed.WF ∧ (∀ o ∈ wOrders, 0 < o.quantity) ∧
    ((∀ os₁ os₂, wOrders = os₁ ++ os₂ → ((execMany wCache 0 60 wLed os₁).1).WF)
     ∧ (∀ (l : Ledger) (s : String) (q : ℚ) (tick : Tick),
        get_latest wCache s = some tick → ¬ (60:ℚ) < 0 - tick.timestamp →
        l.cash_balance < q * tick.price →
        execute_order wCache 0 60 l s .buy q = .error .InsufficientBalance)
     ∧ (∀ (l : Ledger) (s : String) (q : ℚ) (tick : Tick),
        get_latest wCache s = some tick → ¬ (60:ℚ) < 0 - tick.timestamp →
        heldQty l s < q →
        execute_order wCache 0 60 l s .sell q = .error .InsufficientHoldings)) := by
  have hc : CacheWF wCache := by
    intro t ht
    simp only [wCache, List.mem_singleton] at ht
    subst ht
    norm_num
  have hl : wLed.WF := by
    refine ⟨by norm_num [wLed], ?_⟩
    intro p hp
    simp [wLed] at hp
  have hq : ∀ o ∈ wOrders, 0 < o.quantity := by
    intro o ho
    simp only [wOrders, List.mem_cons, List.mem_singleton] at ho
    rcases ho with ho | ho | ho
    · subst ho; norm_num
    · subst ho; norm_num
    · simp at ho
  exact ⟨hc, hl, hq,
    c1_balance_and_quantity_invariants wCache 0 60 wLed wOrders hc hl hq⟩

end TradeForge

namespace TradeForge

/-- C2: an order on which `execute_order` fails (PriceUnavailable,
InsufficientBalance or InsufficientHoldings) leaves the transactional state
— ledger, holdings and Trade Records — exactly unchanged, and a Trade
Record is appended if and only if the order succeeds. -/
theorem c2_failure_leaves_state_unchanged (cache : PriceCache)
    (now thr : ℚ) (st : ExecState) (o : OrderReq) :
    (∀ e, (apply_order cache now thr st o).2 = .error e →
        (apply_order cache now thr st o).1 = st)
    ∧ (∀ rec, (apply_order cache now thr st o).2 = .ok rec →
        (apply_order cache now thr st o).1.records = st.records ++ [rec]) := by
  unfold apply_order
  cases hx : execute_order cache now thr st.ledger o.symbol o.side o.quantity with
  | error e => simp
  | ok pr => obtain ⟨led', rec'⟩ := pr; simp

/-- Witness for C2: a buy of total value 200 against 100 cash fails with
`InsufficientBalance` and leaves the state untouched. -/
theorem c2_failure_leaves_state_unchanged_witness :
    (apply_order wCache 0 60 ⟨wLed, []⟩ ⟨"BTCUSDT", .buy, 20⟩).2
      = .error .InsufficientBalance
    ∧ (apply_order wCache 0 60 ⟨wLed, []⟩ ⟨"BTCUSDT", .buy, 20⟩).1
      = ⟨wLed, []⟩ := by
  have herr : (apply_order wCache 0 60 ⟨wLed, []⟩ ⟨"BTCUSDT", .buy, 20⟩).2
      = .error .InsufficientBalance := by
    norm_num [apply_order, execute_order, get_latest, ticksFor, latestOf,
      buyStep, wCache, wLed, List.filter]
  exact ⟨herr,
    (c2_failure_leaves_state_unchanged wCache 0 60 ⟨wLed, []⟩
      ⟨"BTCUSDT", .buy, 20⟩).1 .InsufficientBalance herr⟩

end TradeForge

namespace TradeForge

theorem removeHolding_cons_self (s : String) (h : Holding)
    (l : List (String × Holding)) :
    removeHolding ((s, h) :: l) s = removeHolding l s := by
  simp [removeHolding, List.filter_cons]

theorem sellStep_cons (cash sb : ℚ) (s : String) (h : Holding)
    (rest : List (String × Holding)) (q price now : ℚ)
    (hle : q ≤ h.quantity) :
    sellStep ⟨cash, sb, (s, h) :: rest⟩ s q price now
      = .ok (⟨cash + q * price, sb,
          if h.quantity - q = 0 then removeHolding ((s, h) :: rest) s
          else (s, ⟨h.quantity - q, h.average_entry_price,
                h.total_invested - q * h.average_entry_price⟩) ::
              removeHolding ((s, h) :: rest) s⟩,
        ⟨s, .sell, q, price, q * price, cash + q * price, now⟩) := by
  simp [sellStep, findHolding, not_lt.mpr hle]

end TradeForge

namespace TradeForge

/-- C3 (corrected): at the concrete instance below the account already
holds 1 unit of the symbol; buying 2 units at price 10 and selling 2 units
back at the same price restores the cash balance exactly, yet the holding
is NOT removed — it survives with the prior quantity — refuting the claim
that the round trip always removes the holding. -/
theorem c3_round_trip_counterexample :
    roundTripLedger wCache 0 60 ⟨100, 100, [("BTCUSDT", ⟨1, 10, 10⟩)]⟩
        "BTCUSDT" 2
      = some ⟨100, 100, [("BTCUSDT", ⟨1, 10, 10⟩)]⟩
    ∧ findHolding
        (⟨100, 100, [("BTCUSDT", ⟨1, 10, 10⟩)]⟩ : Ledger).holdings "BTCUSDT"
      ≠ none := by
  constructor
  · norm_num [roundTripLedger, execute_order, get_latest, ticksFor, latestOf,
      buyStep, sellStep, findHolding, removeHolding, wCache, List.filter]
  · simp [findHolding]

theorem execute_order_sell_eq {cache : PriceCache} {now thr : ℚ} {s : String}
    {tick : Tick} (hg : get_latest cache s = some tick)
    (hfresh : ¬ thr < now - tick.timestamp) (led : Ledger) (q : ℚ) :
    execute_order cache now thr led s Side.sell q
      = sellStep led s q tick.price now := by
  simp [execute_order, hg, hfresh]

theorem execute_order_buy_eq {cache : PriceCache} {now thr : ℚ} {s : String}
    {tick : Tick} (hg : get_latest cache s = some tick)
    (hfresh : ¬ thr < now - tick.timestamp) (led : Ledger) (q : ℚ) :
    execute_order cache now thr led s Side.buy q
      = buyStep led s q tick.price now := by
  simp [execute_order, hg, hfresh]

/-- C3 (amended): for every account state, a successful buy of `q > 0`
units immediately followed by a sell of `q` units prices both legs at the
same cached price, always succeeds, returns `cash_balance` exactly to its
pre-buy value (no rounding loss in exact rational arithmetic), returns the
holding's quantity to its pre-buy value, and removes the holding exactly
when no quantity was held before the buy. -/
theorem c3_round_trip_restores_balance (cache : PriceCache) (now thr : ℚ)
    (led led1 : Ledger) (rec1 : TradeRecord) (s : String) (q : ℚ)
    (hl : led.WF) (_hq : 0 < q)
    (hbuy : execute_order cache now thr led s Side.buy q = .ok (led1, rec1)) :
    ∃ led2 rec2,
      execute_order cache now thr led1 s Side.sell q = .ok (led2, rec2)
      ∧ rec2.price = rec1.price
      ∧ led2.cash_balance = led.cash_balance
      ∧ (findHolding led2.holdings s = none ↔ heldQty led s = 0)
      ∧ (∀ h2, findHolding led2.holdings s = some h2 →
          h2.quantity = heldQty led s) := by
  set old : Holding := (findHolding led.holdings s).getD ⟨0, 0, 0⟩ with hold_def
  simp only [execute_order] at hbuy
  split at hbuy
  · exact absurd hbuy (by simp)
  rename_i tick hg
  split at hbuy
  · exact absurd hbuy (by simp)
  rename_i hfresh
  simp only [buyStep, ← hold_def] at hbuy
  split at hbuy
  · exact absurd hbuy (by simp)
  rename_i hcash
  simp only [Except.ok.injEq, Prod.mk.injEq] at hbuy
  obtain ⟨hled1, hrec1⟩ := hbuy
  have holdq : 0 ≤ old.quantity := by
    rw [hold_def]
    cases hfh : findHolding led.holdings s with
    | none => simp
    | some h0 => simpa using hl.2 _ (findHolding_mem hfh)
  have hqq : heldQty led s = old.quantity := by
    rw [heldQty, hold_def]
    cases hfh : findHolding led.holdings s <;> simp [hfh]
  have hle : q ≤ old.quantity + q := by linarith
  have hsell := sellStep_cons (led.cash_balance - q * tick.price)
    led.starting_balance s
    ⟨old.quantity + q,
     (old.quantity * old.average_entry_price + q * tick.price) / (old.quantity + q),
     old.total_invested + q * tick.price⟩
    (removeHolding led.holdings s) q tick.price now hle
  simp only [add_sub_cancel_right, sub_add_cancel] at hsell
  rw [hled1] at hsell
  by_cases hzero : old.quantity = 0
  · rw [if_pos hzero] at hsell
    refine ⟨_, _, by rw [execute_order_sell_eq hg hfresh]; exact hsell,
      by simp [← hrec1], by simp, ?_, ?_⟩
    · rw [removeHolding_cons_self, findHolding_removeHolding]
      simp [hqq, hzero]
    · intro h2 hh2
      rw [removeHolding_cons_self, findHolding_removeHolding] at hh2
      exact absurd hh2 (by simp)
  · rw [if_neg hzero] at hsell
    refine ⟨_, _, by rw [execute_order_sell_eq hg hfresh]; exact hsell,
      by simp [← hrec1], by simp, ?_, ?_⟩
    · simp only [findHolding, if_pos rfl]
      constructor
      · intro hcontra; exact absurd hcontra (by simp)
      · intro hcontra; rw [hqq] at hcontra; exact absurd hcontra hzero
    · intro h2 hh2
      simp only [findHolding, if_pos rfl, if_true, Option.some.injEq] at hh2
      rw [← hh2, hqq]

end TradeForge

namespace TradeForge

/-- Witness for C3 (amended) at the concrete fixtures: buy 5 then sell 5
starting from an account with no holding. -/
theorem c3_round_trip_restores_balance_witness :
    wLed.WF ∧ (0:ℚ) < 5
    ∧ execute_order wCache 0 60 wLed "BTCUSDT" Side.buy 5
        = .ok (⟨50, 100, [("BTCUSDT", ⟨5, 10, 50⟩)]⟩,
               ⟨"BTCUSDT", Side.buy, 5, 10, 50, 50, 0⟩)
    ∧ ∃ led2 rec2,
        execute_order wCache 0 60 (⟨50, 100, [("BTCUSDT", ⟨5, 10, 50⟩)]⟩ : Ledger)
            "BTCUSDT" Side.sell 5 = .ok (led2, rec2)
        ∧ rec2.price = (⟨"BTCUSDT", Side.buy, 5, 10, 50, 50, 0⟩ : TradeRecord).price
        ∧ led2.cash_balance = wLed.cash_balance
        ∧ (findHolding led2.holdings "BTCUSDT" = none ↔ heldQty wLed "BTCUSDT" = 0)
        ∧ (∀ h2, findHolding led2.holdings "BTCUSDT" = some h2 →
            h2.quantity = heldQty wLed "BTCUSDT") := by
  have hl : wLed.WF := ⟨by norm_num [wLed], by intro p hp; simp [wLed] at hp⟩
  have hq : (0:ℚ) < 5 := by norm_num
  have hbuy : execute_order wCache 0 60 wLed "BTCUSDT" Side.buy 5
      = .ok (⟨50, 100, [("BTCUSDT", ⟨5, 10, 50⟩)]⟩,
             ⟨"BTCUSDT", Side.buy, 5, 10, 50, 50, 0⟩) := by
    norm_num [execute_order, get_latest, ticksFor, latestOf, buyStep,
      findHolding, removeHolding, wCache, wLed, List.filter]
  exact ⟨hl, hq, hbuy,
    c3_round_trip_restores_balance wCache 0 60 wLed _ _ "BTCUSDT" 5 hl hq hbuy⟩

end TradeForge

namespace TradeForge

theorem execMany_all_insufficient {cache : PriceCache} {now thr : ℚ}
    {s : String} {q : ℚ} {tick : Tick}
    (hg : get_latest cache s = some tick)
    (hfresh : ¬ thr < now - tick.timestamp) :
    ∀ (m : Nat) (led : Ledger), led.cash_balance < q * tick.price →
      execMany cache now thr led (List.replicate m ⟨s, Side.buy, q⟩)
        = (led, List.replicate m (.error TradeError.InsufficientBalance)) := by
  intro m
  induction m with
  | zero => intro led _; simp [execMany]
  | succ k ih =>
    intro led hcash
    have hfail : execute_order cache now thr led s Side.buy q
        = .error .InsufficientBalance := by
      rw [execute_order_buy_eq hg hfresh]
      simp [buyStep, hcash]
    simp only [List.replicate_succ, execMany, hfail]
    simp [ih led hcash]

/-- C4: with per-account serialization, N simultaneous buy orders against
an account whose cash exactly covers one of them execute in some sequential
order, and — whatever that order — exactly the first succeeds while the
remaining N−1 all fail with `InsufficientBalance`. -/
theorem c4_n_buys_one_success (cache : PriceCache) (now thr : ℚ)
    (led : Ledger) (s : String) (q : ℚ) (tick : Tick) (n : Nat)
    (hg : get_latest cache s = some tick)
    (hfresh : ¬ thr < now - tick.timestamp)
    (hp : 0 < tick.price) (hq : 0 < q)
    (hbal : led.cash_balance = q * tick.price) (hn : 1 ≤ n) :
    ∃ rec, (execMany cache now thr led (List.replicate n ⟨s, Side.buy, q⟩)).2
      = .ok rec :: List.replicate (n - 1) (.error TradeError.InsufficientBalance) := by
  obtain ⟨k, rfl⟩ : ∃ k, n = k + 1 := ⟨n - 1, by omega⟩
  have hcash : ¬ led.cash_balance < q * tick.price := by
    rw [hbal]; exact lt_irrefl _
  have hok2 : ∃ led1 rec1,
      execute_order cache now thr led s Side.buy q = .ok (led1, rec1)
      ∧ led1.cash_balance = led.cash_balance - q * tick.price := by
    rw [execute_order_buy_eq hg hfresh]
    simp only [buyStep]
    rw [if_neg hcash]
    exact ⟨_, _, rfl, rfl⟩
  obtain ⟨led1, rec1, hok, hcash1⟩ := hok2
  have hlow : led1.cash_balance < q * tick.price := by
    rw [hcash1, hbal, sub_self]
    exact mul_pos hq hp
  refine ⟨rec1, ?_⟩
  simp only [List.replicate_succ, execMany, hok]
  rw [execMany_all_insufficient hg hfresh k led1 hlow]
  simp

/-- Witness for C4 at the concrete fixtures: cash 100 covers exactly one
buy of 10 units at price 10; three such buys yield one success and two
`InsufficientBalance` failures. -/
theorem c4_n_buys_one_success_witness :
    get_latest wCache "BTCUSDT" = some ⟨"binance", "BTCUSDT", 10, 1, 0⟩
    ∧ ¬ (60:ℚ) < 0 - (0:ℚ)
    ∧ (0:ℚ) < 10
    ∧ wLed.cash_balance = 10 * 10
    ∧ 1 ≤ 3
    ∧ ∃ rec, (execMany wCache 0 60 wLed
          (List.replicate 3 ⟨"BTCUSDT", Side.buy, 10⟩)).2
        = .ok rec :: List.replicate 2 (.error TradeError.InsufficientBalance) := by
  have hg : get_latest wCache "BTCUSDT" = some ⟨"binance", "BTCUSDT", 10, 1, 0⟩ := by
    norm_num [get_latest, ticksFor, latestOf, wCache, List.filter]
  have hfresh : ¬ (60:ℚ) < 0 - (0:ℚ) := by norm_num
  have hp : (0:ℚ) < 10 := by norm_num
  have hbal : wLed.cash_balance = 10 * 10 := by norm_num [wLed]
  have hn : 1 ≤ 3 := by norm_num
  refine ⟨hg, hfresh, hp, hbal, hn, ?_⟩
  exact c4_n_buys_one_success wCache 0 60 wLed "BTCUSDT" 10
    ⟨"binance", "BTCUSDT", 10, 1, 0⟩ 3 hg hfresh hp hp hbal hn

end TradeForge

namespace TradeForge

/-- Witness for C5: an empty cache fails any order with `PriceUnavailable`,
and a tick aged 1000 against threshold 60 also fails with
`PriceUnavailable`. -/
theorem c5_stale_or_missing_price_fails_witness :
    execute_order ([] : PriceCache) 0 60 wLed "BTCUSDT" Side.buy 1
      = .error .PriceUnavailable
    ∧ get_latest wCache "BTCUSDT" = some ⟨"binance", "BTCUSDT", 10, 1, 0⟩
    ∧ (60:ℚ) < 1000 - 0
    ∧ execute_order wCache 1000 60 wLed "BTCUSDT" Side.sell 1
      = .error .PriceUnavailable := by
  have h1 : ∀ t ∈ ([] : PriceCache), t.symbol ≠ "BTCUSDT" := by simp
  have hg : get_latest wCache "BTCUSDT" = some ⟨"binance", "BTCUSDT", 10, 1, 0⟩ := by
    norm_num [get_latest, ticksFor, latestOf, wCache, List.filter]
  have hst : (60:ℚ) < 1000 - 0 := by norm_num
  exact ⟨(c5_stale_or_missing_price_fails [] 0 60 wLed "BTCUSDT" .buy 1).1 h1,
    hg, hst,
    (c5_stale_or_missing_price_fails wCache 1000 60 wLed "BTCUSDT" .sell 1).2
      ⟨"binance", "BTCUSDT", 10, 1, 0⟩ hg hst⟩

end TradeForge

namespace TradeForge

theorem heldQty_getD (led : Ledger) (s : String) :
    heldQty led s = ((findHolding led.holdings s).getD ⟨0, 0, 0⟩).quantity := by
  rw [heldQty]
  cases h : findHolding led.holdings s <;> simp [h]

/-- C6: a successful buy of `q` at resolved price `p` on prior quantity
`old_qty` and average `old_avg` stores the quantity-weighted average
`(old_qty*old_avg + q*p) / (old_qty + q)`; a successful sell leaves the
average entry price unchanged, decreases the quantity by the sold amount,
and removes the holding exactly when the resulting quantity is zero. -/
theorem c6_weighted_average_and_sell (cache : PriceCache) (now thr : ℚ)
    (led : Ledger) (s : String) (q : ℚ) (tick : Tick)
    (hg : get_latest cache s = some tick)
    (hfresh : ¬ thr < now - tick.timestamp) :
    (∀ led' rec, execute_order cache now thr led s Side.buy q = .ok (led', rec) →
        findHolding led'.holdings s = some
          ⟨heldQty led s + q,
           (heldQty led s * heldAvg led s + q * tick.price) / (heldQty led s + q),
           heldInvested led s + q * tick.price⟩)
    ∧ (∀ led' rec h, findHolding led.holdings s = some h →
        execute_order cache now thr led s Side.sell q = .ok (led', rec) →
        (h.quantity - q ≠ 0 →
           findHolding led'.holdings s = some
             ⟨h.quantity - q, h.average_entry_price,
              h.total_invested - q * h.average_entry_price⟩)
        ∧ (h.quantity - q = 0 → findHolding led'.holdings s = none)) := by
  constructor
  · intro led' rec hbuy
    rw [execute_order_buy_eq hg hfresh] at hbuy
    simp only [buyStep] at hbuy
    split at hbuy
    · exact absurd hbuy (by simp)
    rename_i hcash
    simp only [Except.ok.injEq, Prod.mk.injEq] at hbuy
    obtain ⟨hled, -⟩ := hbuy
    rw [← hled]
    simp only [findHolding, if_pos rfl, if_true, heldQty_getD, heldAvg, heldInvested]
  · intro led' rec h hfh hsell
    rw [execute_order_sell_eq hg hfresh] at hsell
    simp only [sellStep, hfh] at hsell
    split at hsell
    · exact absurd hsell (by simp)
    rename_i hqty
    simp only [Except.ok.injEq, Prod.mk.injEq] at hsell
    obtain ⟨hled, -⟩ := hsell
    constructor
    · intro hne
      rw [← hled]
      simp only [if_neg hne, findHolding, if_pos rfl, if_true]
    · intro heq
      rw [← hled]
      simp only [if_pos heq]
      exact findHolding_removeHolding _ s

/-- Witness for C6: buying 2 units at price 10 on top of a holding of 1
unit at average 10 stores the weighted-average holding. -/
theorem c6_weighted_average_and_sell_witness :
    execute_order wCache 0 60 wLedH "BTCUSDT" Side.buy 2
      = .ok (⟨80, 100, [("BTCUSDT", ⟨3, 10, 30⟩)]⟩,
             ⟨"BTCUSDT", Side.buy, 2, 10, 20, 80, 0⟩)
    ∧ findHolding (⟨80, 100, [("BTCUSDT", ⟨3, 10, 30⟩)]⟩ : Ledger).holdings
        "BTCUSDT"
      = some ⟨heldQty wLedH "BTCUSDT" + 2,
          (heldQty wLedH "BTCUSDT" * heldAvg wLedH "BTCUSDT"
            + 2 * (⟨"binance", "BTCUSDT", 10, 1, 0⟩ : Tick).price)
            / (heldQty wLedH "BTCUSDT" + 2),
          heldInvested wLedH "BTCUSDT"
            + 2 * (⟨"binance", "BTCUSDT", 10, 1, 0⟩ : Tick).price⟩ := by
  have hg : get_latest wCache "BTCUSDT" = some ⟨"binance", "BTCUSDT", 10, 1, 0⟩ := by
    norm_num [get_latest, ticksFor, latestOf, wCache, List.filter]
  have hfresh : ¬ (60:ℚ) < 0 - (⟨"binance", "BTCUSDT", 10, 1, 0⟩ : Tick).timestamp := by
    norm_num
  have hbuy : execute_order wCache 0 60 wLedH "BTCUSDT" Side.buy 2
      = .ok (⟨80, 100, [("BTCUSDT", ⟨3, 10, 30⟩)]⟩,
             ⟨"BTCUSDT", Side.buy, 2, 10, 20, 80, 0⟩) := by
    norm_num [execute_order, get_latest, ticksFor, latestOf, buyStep,
      findHolding, removeHolding, wCache, wLedH, List.filter]
  exact ⟨hbuy,
    (c6_weighted_average_and_sell wCache 0 60 wLedH "BTCUSDT" 2 _ hg hfresh).1
      _ _ hbuy⟩

end TradeForge

namespace TradeForge

/-- C7: `value_portfolio` is total — it never fails on a missing price:
`current_value` is the sum of quantity times resolved price (the cached
latest price, or the holding's average entry price, flagged stale, when no
tick is cached), `unrealized_pnl = current_value − total_invested`, and
`pnl_percent = unrealized_pnl / total_invested × 100` with value 0 when
`total_invested = 0`. -/
theorem c7_portfolio_valuation (cache : PriceCache) (led : Ledger) :
    (value_portfolio cache led).current_value
      = (led.holdings.map (fun p => p.2.quantity * resolvedPrice cache p.1 p.2)).sum
    ∧ (value_portfolio cache led).total_invested
      = (led.holdings.map (fun p => p.2.total_invested)).sum
    ∧ (value_portfolio cache led).unrealized_pnl
      = (value_portfolio cache led).current_value
        - (value_portfolio cache led).total_invested
    ∧ (value_portfolio cache led).pnl_percent
      = (if (value_portfolio cache led).total_invested = 0 then 0
         else (value_portfolio cache led).unrealized_pnl
           / (value_portfolio cache led).total_invested * 100)
    ∧ ∀ v ∈ (value_portfolio cache led).holdings,
        (v.stale = true ↔ get_latest cache v.symbol = none)
        ∧ (v.stale = true → v.current_price = v.average_entry_price) := by
  refine ⟨?_, ?_, ?_, ?_, ?_⟩
  · simp [value_portfolio, valueHolding, List.map_map, Function.comp_def]
  · simp [value_portfolio, valueHolding, List.map_map, Function.comp_def]
  · simp [value_portfolio]
  · simp [value_portfolio]
  · intro v hv
    simp only [value_portfolio, List.mem_map] at hv
    obtain ⟨p, hp, rfl⟩ := hv
    constructor
    · simp only [valueHolding, isStaleFor]
      cases hg : get_latest cache p.1 <;> simp [hg]
    · intro hstale
      simp only [valueHolding, isStaleFor] at hstale ⊢
      cases hg : get_latest cache p.1 with
      | none => simp [resolvedPrice, hg]
      | some t => rw [hg] at hstale; simp at hstale

/-- Witness for C7 at the concrete fixtures: one holding with no cached
tick for its symbol is valued at its average entry price and flagged
stale. -/
theorem c7_portfolio_valuation_witness :
    (value_portfolio ([] : PriceCache) wLedH).current_value
      = (wLedH.holdings.map
          (fun p => p.2.quantity * resolvedPrice ([] : PriceCache) p.1 p.2)).sum
    ∧ (value_portfolio ([] : PriceCache) wLedH).unrealized_pnl
      = (value_portfolio ([] : PriceCache) wLedH).current_value
        - (value_portfolio ([] : PriceCache) wLedH).total_invested
    ∧ valueHolding ([] : PriceCache) ("BTCUSDT", ⟨1, 10, 10⟩)
        ∈ (value_portfolio ([] : PriceCache) wLedH).holdings
    ∧ ((valueHolding ([] : PriceCache) ("BTCUSDT", ⟨1, 10, 10⟩)).stale = true
        ↔ get_latest ([] : PriceCache)
            (valueHolding ([] : PriceCache) ("BTCUSDT", ⟨1, 10, 10⟩)).symbol
          = none) := by
  have hmem : valueHolding ([] : PriceCache) ("BTCUSDT", ⟨1, 10, 10⟩)
      ∈ (value_portfolio ([] : PriceCache) wLedH).holdings := by
    simp [value_portfolio, wLedH]
  refine ⟨(c7_portfolio_valuation [] wLedH).1,
    (c7_portfolio_valuation [] wLedH).2.2.1, hmem,
    ((c7_portfolio_valuation [] wLedH).2.2.2.2 _ hmem).1⟩

end TradeForge

namespace PriceStream

theorem onClose_saturated {st : StreamState}
    (h : MAX_RECONNECT_ATTEMPTS ≤ st.reconnectAttempts) (c : Nat) :
    (onClose st c).reconnectAttempts = st.reconnectAttempts
    ∧ (onClose st c).scheduledDelay = none := by
  have hnot : ¬ st.reconnectAttempts < MAX_RECONNECT_ATTEMPTS := not_lt.mpr h
  simp [onClose, hnot, h]

theorem runCloses_saturated {st : StreamState}
    (h : MAX_RECONNECT_ATTEMPTS ≤ st.reconnectAttempts) (codes : List Nat) :
    MAX_RECONNECT_ATTEMPTS ≤ (runCloses st codes).reconnectAttempts := by
  induction codes generalizing st with
  | nil => simpa [runCloses] using h
  | cons c cs ih =>
    have hstep := (onClose_saturated h c).1
    have : MAX_RECONNECT_ATTEMPTS ≤ (onClose st c).reconnectAttempts := by
      rw [hstep]; exact h
    simpa [runCloses, List.foldl_cons] using ih this

/-- C8: a non-deliberate close (code ≠ 1000) with fewer than 10 attempts
made schedules exactly one reconnect after the 3-second delay and
increments the attempt counter; once the counter has reached 10, no close
event ever schedules another attempt; `reconnect()` resets the counter to
zero before connecting; a close with the intentional code 1000 never
schedules a reconnect. -/
theorem c8_bounded_reconnect_policy (st : StreamState) (code : Nat)
    (codes : List Nat) :
    (code ≠ 1000 → st.reconnectAttempts < MAX_RECONNECT_ATTEMPTS →
        (onClose st code).scheduledDelay = some RECONNECT_DELAY
        ∧ (onClose st code).reconnectAttempts = st.reconnectAttempts + 1)
    ∧ (MAX_RECONNECT_ATTEMPTS ≤ st.reconnectAttempts →
        ∀ c, (onClose (runCloses st codes) c).scheduledDelay = none)
    ∧ (reconnect st).reconnectAttempts = 0
    ∧ (onClose st 1000).scheduledDelay = none := by
  refine ⟨?_, ?_, rfl, ?_⟩
  · intro hcode hlt
    constructor <;> simp [onClose, hcode, hlt]
  · intro hsat c
    exact (onClose_saturated (runCloses_saturated hsat codes) c).2
  · by_cases hsat : MAX_RECONNECT_ATTEMPTS ≤ st.reconnectAttempts
    · simp [onClose, hsat]
    · simp [onClose, hsat]

/-- Witness for C8: a close with code 1006 at 3 prior attempts schedules a
3-second reconnect; at 10 attempts nothing is ever scheduled again. -/
theorem c8_bounded_reconnect_policy_witness :
    ((1006 ≠ 1000 ∧ 3 < MAX_RECONNECT_ATTEMPTS)
      ∧ (onClose ⟨[], true, none, 3, none⟩ 1006).scheduledDelay
          = some RECONNECT_DELAY
      ∧ (onClose ⟨[], true, none, 3, none⟩ 1006).reconnectAttempts = 4)
    ∧ (MAX_RECONNECT_ATTEMPTS ≤ 10
      ∧ ∀ c, (onClose (runCloses ⟨[], false, none, 10, none⟩ [1006, 1001]) c).scheduledDelay
          = none)
    ∧ (reconnect ⟨[], false, none, 10, none⟩).reconnectAttempts = 0
    ∧ (onClose ⟨[], true, none, 3, none⟩ 1000).scheduledDelay = none := by
  have h1 : (1006 : Nat) ≠ 1000 := by decide
  have h2 : (3 : Nat) < MAX_RECONNECT_ATTEMPTS := by decide
  have h3 : MAX_RECONNECT_ATTEMPTS ≤ (10 : Nat) := by decide
  have hmain := c8_bounded_reconnect_policy ⟨[], true, none, 3, none⟩ 1006 []
  have hsat := c8_bounded_reconnect_policy ⟨[], false, none, 10, none⟩ 1006 [1006, 1001]
  exact ⟨⟨⟨h1, h2⟩, (hmain.1 h1 h2).1, (hmain.1 h1 h2).2⟩,
    ⟨h3, hsat.2.1 h3⟩,
    (c8_bounded_reconnect_policy ⟨[], false, none, 10, none⟩ 1006 []).2.2.1,
    hmain.2.2.2⟩

end PriceStream

namespace PriceStream

theorem mem_setPrice {m : List (String × JsVal)} {k : String} {v : JsVal}
    {p : String × JsVal} (h : p ∈ setPrice m k v) : p = (k, v) ∨ p ∈ m := by
  rcases List.mem_cons.mp h with h | h
  · exact Or.inl h
  · exact Or.inr (List.mem_filter.mp h).1

theorem processMsgs_values_num (msgs : List StreamMsg) :
    ∀ (st : StreamState), (∀ p ∈ st.prices, ∃ q, p.2 = JsVal.num q) →
      ∀ p ∈ (processMsgs st msgs).prices, ∃ q, p.2 = JsVal.num q := by
  induction msgs with
  | nil => intro st h; simpa [processMsgs] using h
  | cons m ms ih =>
    intro st h
    have hstep : ∀ p ∈ (onMessage st m).prices, ∃ q, p.2 = JsVal.num q := by
      cases m with
      | malformed => simpa [onMessage] using h
      | parsed u =>
        intro p hp
        simp only [onMessage] at hp
        rcases mem_setPrice hp with hp | hp
        · exact ⟨u.price, by rw [hp]⟩
        · exact h p hp
    simpa [processMsgs, List.foldl_cons] using ih (onMessage st m) hstep

theorem processMsgs_keys (msgs : List StreamMsg) :
    ∀ (st : StreamState), ∀ p ∈ (processMsgs st msgs).prices,
      p ∈ st.prices ∨ ∃ u, StreamMsg.parsed u ∈ msgs ∧ p.1 = u.symbol := by
  induction msgs with
  | nil => intro st p hp; exact Or.inl (by simpa [processMsgs] using hp)
  | cons m ms ih =>
    intro st p hp
    have hp' : p ∈ (processMsgs (onMessage st m) ms).prices := by
      simpa [processMsgs, List.foldl_cons] using hp
    rcases ih (onMessage st m) p hp' with hmem | ⟨u, hu, hps⟩
    · cases m with
      | malformed => exact Or.inl (by simpa [onMessage] using hmem)
      | parsed u =>
        simp only [onMessage] at hmem
        rcases mem_setPrice hmem with heq | hmem
        · exact Or.inr ⟨u, List.mem_cons_self _ _, by rw [heq]⟩
        · exact Or.inl hmem
    · exact Or.inr ⟨u, List.mem_cons_of_mem _ hu, hps⟩

theorem priceCell_of_num_values (prices : List (String × JsVal))
    (h : ∀ p ∈ prices, ∃ q, p.2 = JsVal.num q) (exchange symbol : String) :
    priceCell prices exchange symbol = Cell.placeholder := by
  unfold priceCell lookupJs
  cases hf : prices.find? (fun p => p.1 == exchange ++ ":" ++ symbol) with
  | none => simp [JsVal.priceField, formatPrice, truthy]
  | some p =>
    obtain ⟨q, hq⟩ := h p (List.mem_of_find?_eq_some hf)
    simp [hq, JsVal.priceField, formatPrice, truthy]

theorem volumeCell_of_num_values (prices : List (String × JsVal))
    (h : ∀ p ∈ prices, ∃ q, p.2 = JsVal.num q) (exchange symbol : String) :
    volumeCell prices exchange symbol = Cell.placeholder := by
  unfold volumeCell lookupJs
  cases hf : prices.find? (fun p => p.1 == exchange ++ ":" ++ symbol) with
  | none => simp [JsVal.volumeField, formatVolume, truthy]
  | some p =>
    obtain ⟨q, hq⟩ := h p (List.mem_of_find?_eq_some hf)
    simp [hq, JsVal.volumeField, formatVolume, truthy]

/-- C10 (corrected): a tick whose `symbol` field itself contains the string
`"binance:BTCUSDT"` produces exactly the key the per-exchange lookup of
LivePrice queries, so the lookup DOES find an entry, refuting the claim
that it never finds one. -/
theorem c10_lookup_counterexample :
    lookupJs (processMsgs initialStreamState
        [StreamMsg.parsed ⟨"binance:BTCUSDT", 5, "binance", "t"⟩]).prices
      ("binance" ++ ":" ++ "BTCUSDT") = JsVal.num 5 := by
  decide

/-- C10 (amended): every entry of the `prices` map produced by
`usePriceStream` holds a bare numeric price under the key taken verbatim
from a received update's `symbol` field (exchange and volume discarded);
whatever the received messages and whatever entry the per-exchange lookup
of LivePrice finds, the stored value is a bare number with no `price` or
`volume` field, so the per-exchange price and volume cells always render
the `'---'` placeholder. -/
theorem c10_per_exchange_cells_placeholder (msgs : List StreamMsg)
    (exchange symbol : String) :
    (∀ p ∈ (processMsgs initialStreamState msgs).prices,
        ∃ q, p.2 = JsVal.num q)
    ∧ (∀ p ∈ (processMsgs initialStreamState msgs).prices,
        ∃ u, StreamMsg.parsed u ∈ msgs ∧ p.1 = u.symbol)
    ∧ priceCell (processMsgs initialStreamState msgs).prices exchange symbol
      = Cell.placeholder
    ∧ volumeCell (processMsgs initialStreamState msgs).prices exchange symbol
      = Cell.placeholder := by
  have hnum : ∀ p ∈ (processMsgs initialStreamState msgs).prices,
      ∃ q, p.2 = JsVal.num q := by
    refine processMsgs_values_num msgs initialStreamState ?_
    intro p hp
    simp [initialStreamState] at hp
  refine ⟨hnum, ?_, priceCell_of_num_values _ hnum exchange symbol,
    volumeCell_of_num_values _ hnum exchange symbol⟩
  intro p hp
  rcases processMsgs_keys msgs initialStreamState p hp with hmem | h
  · simp [initialStreamState] at hmem
  · exact h

/-- Witness for C10 (amended) at a concrete message list. -/
theorem c10_per_exchange_cells_placeholder_witness :
    (∀ p ∈ (processMsgs initialStreamState
        [StreamMsg.parsed ⟨"BTCUSDT", 5, "binance", "t"⟩]).prices,
        ∃ q, p.2 = JsVal.num q)
    ∧ priceCell (processMsgs initialStreamState
        [StreamMsg.parsed ⟨"BTCUSDT", 5, "binance", "t"⟩]).prices
        "binance" "BTCUSDT" = Cell.placeholder
    ∧ volumeCell (processMsgs initialStreamState
        [StreamMsg.parsed ⟨"BTCUSDT", 5, "binance", "t"⟩]).prices
        "binance" "BTCUSDT" = Cell.placeholder := by
  have h := c10_per_exchange_cells_placeholder
    [StreamMsg.parsed ⟨"BTCUSDT", 5, "binance", "t"⟩] "binance" "BTCUSDT"
  exact ⟨h.1, h.2.2.1, h.2.2.2⟩

end PriceStream
